import Mathlib

/-!
Shallow embedding of the WKHAllen/3d-render core: the vector/matrix algebra,
triangle/mesh/transform pipeline and the column-sweep rasterizer.

The rasterizer (`src/game_window.rs`, `src/screen.rs`, `src/color.rs`) is
embedded over `ℚ` (an exact stand-in for the `f32` coordinates that keeps
every definition computable and every comparison decidable), with Rust's
rounding and saturating float-to-integer casts made explicit.  The 3D
geometry pipeline (`src/transform.rs`, `src/triangle.rs`, `src/matrix.rs`)
is embedded over `ℝ`, since triangle normals use a square root and the
rotations use sine and cosine.
-/

/-! ## Numeric conversions used by the Rust code -/

/-- `f32::round`: round half away from zero, as an integer. -/
def rustRound (q : ℚ) : ℤ :=
  if 0 ≤ q then ⌊q + 1 / 2⌋ else ⌈q - 1 / 2⌉

/-- The largest value of `usize` on a 64-bit target. -/
def usizeMax : ℕ := 2 ^ 64 - 1

/-- Rust's saturating cast `as usize` applied to an integral float value:
negative values clamp to `0`, values beyond `usize::MAX` clamp to it. -/
def intToUsize (z : ℤ) : ℕ :=
  if z < 0 then 0 else min z.toNat usizeMax

/-- `.round() as usize`, as used by `draw` and `fill_triangle`. -/
def roundToUsize (q : ℚ) : ℕ :=
  intToUsize (rustRound q)

/-- An `f32` value fed to a narrowing cast: `none` models NaN, `some q` a
finite value. -/
def F32Val : Type := Option ℚ

/-- Rust's saturating cast `as u8` on an `f32`: truncate toward zero, clamp
into `[0, 255]`, and map NaN to `0`. -/
def f32ToU8 (v : F32Val) : ℕ :=
  match v with
  | none => 0
  | some q => if q < 0 then 0 else min ⌊q⌋.toNat 255

/-- Checked `usize` subtraction: `none` models the arithmetic-underflow
panic of Rust's `a - b` when `b > a`. -/
def checkedSub (a b : ℕ) : Option ℕ :=
  if b ≤ a then some (a - b) else none

/-! ## Colors (`src/color.rs`) -/

/-- `Color(u8, u8, u8)` from `src/color.rs`. -/
structure Color where
  r : ℕ
  g : ℕ
  b : ℕ
deriving DecidableEq, Repr

/-- `Color::to_u8_rgb`: pack the channels as `(r << 16) | (g << 8) | b`. -/
def Color.to_u8_rgb (c : Color) : ℕ :=
  (c.r <<< 16) ||| (c.g <<< 8) ||| c.b

/-! ## 2D vectors and triangles (`src/vector.rs`, `src/triangle.rs`), as the
rasterizer consumes them -/

/-- `Vector<2, T>`: a two-coordinate vector. -/
structure Vec2 (α : Type) where
  x : α
  y : α
deriving DecidableEq, Repr

instance : Inhabited (Vec2 ℚ) := ⟨⟨0, 0⟩⟩

/-- `Triangle<2, T>`: three 2D vectors plus an `f32` luminance. -/
structure Triangle2 (α : Type) where
  v0 : Vec2 α
  v1 : Vec2 α
  v2 : Vec2 α
  lum : α
deriving DecidableEq, Repr

/-- `Triangle::vectors()` as the `Vec` that `fill_triangle` builds from it. -/
def Triangle2.vecs {α : Type} (t : Triangle2 α) : List (Vec2 α) :=
  [t.v0, t.v1, t.v2]

/-- `Mesh<2, T>`: an ordered list of 2D triangles. -/
structure Mesh2 (α : Type) where
  tris : List (Triangle2 α)
deriving DecidableEq, Repr

/-! ## The screen buffer (`src/screen.rs`) -/

/-- `Screen`: a width, a height and a flat row-major pixel buffer. -/
structure Screen where
  width : ℕ
  height : ℕ
  buffer : List ℕ
deriving DecidableEq, Repr

/-- `Screen::get_mut` as a predicate: the coordinates at which a mutable
pixel reference exists (bounds check plus buffer indexing). -/
def Screen.inBounds (s : Screen) (x y : ℕ) : Prop :=
  x < s.width ∧ y < s.height ∧ y * s.width + x < s.buffer.length

instance (s : Screen) (x y : ℕ) : Decidable (s.inBounds x y) := by
  unfold Screen.inBounds
  infer_instance

/-! ## The rasterizer (`src/game_window.rs`) -/

/-- `GameWindow::draw`: round the point's coordinates, cast them to `usize`
with saturation, and write the packed color through `Screen::get_mut`,
doing nothing when `get_mut` yields no pixel. -/
def draw (s : Screen) (p : Vec2 ℚ) (color : Color) : Screen :=
  let px := roundToUsize p.x
  let py := roundToUsize p.y
  if s.inBounds px py then
    { s with buffer := s.buffer.set (py * s.width + px) color.to_u8_rgb }
  else
    s

/-- One `draw_line` call recorded by a tracing rasterizer: the two
endpoints and the color passed to it. -/
structure LineCmd where
  p1 : Vec2 ℚ
  p2 : Vec2 ℚ
  color : Color
deriving DecidableEq, Repr

/-- `GameWindow::draw_shape`, recorded as the list of `draw_line` calls it
makes: `none` models the panic on fewer than two points; otherwise one
line per consecutive pair of points, then the closing line between the
first point and the last. -/
def draw_shape (points : List (Vec2 ℚ)) (color : Color) : Option (List LineCmd) :=
  if points.length < 2 then
    none
  else
    some ((List.range (points.length - 1)).map
        (fun i => ⟨points.getD i default, points.getD (i + 1) default, color⟩)
      ++ [⟨points.headD default, points.getLastD default, color⟩])

/-- `GameWindow::apply_color_luminance`: scale every channel of the color
by `1 - (1 - luminance) * shadow_intensity`, round, and narrow to `u8`. -/
def apply_color_luminance (shadow_intensity : ℚ) (color : Color) (luminance : ℚ) : Color :=
  let lum := 1 - (1 - luminance) * shadow_intensity
  ⟨f32ToU8 (some ((rustRound ((color.r : ℚ) * lum) : ℤ) : ℚ)),
   f32ToU8 (some ((rustRound ((color.g : ℚ) * lum) : ℤ) : ℚ)),
   f32ToU8 (some ((rustRound ((color.b : ℚ) * lum) : ℤ) : ℚ))⟩

/-- The index `min_x_index` computed in `fill_triangle`:
`(0..3).reduce(|min, current| if vecs[min][0] < vecs[current][0] { min } else { current })`. -/
def min_x_index (vecs : List (Vec2 ℚ)) : ℕ :=
  List.foldl
    (fun m c => if (vecs.getD m default).x < (vecs.getD c default).x then m else c)
    0 [1, 2]

/-- The index `max_x_index` computed in `fill_triangle`:
`(0..3).reduce(|min, current| if vecs[min][0] > vecs[current][0] { min } else { current })`. -/
def max_x_index (vecs : List (Vec2 ℚ)) : ℕ :=
  List.foldl
    (fun m c => if (vecs.getD m default).x > (vecs.getD c default).x then m else c)
    0 [1, 2]

/-- The vertex-classification step of `fill_triangle`: pick `vec_left` and
`vec_right` by the two reduced indices, removing each chosen vertex from
the working list (with the index shift the source applies when the maximal
index follows the minimal one), and let `vec_mid` be the vertex that
remains.  Returns `(vec_left, vec_right, vec_mid)`. -/
def classify (t : Triangle2 ℚ) : Vec2 ℚ × Vec2 ℚ × Vec2 ℚ :=
  let vecs := t.vecs
  let minIdx := min_x_index vecs
  let maxIdx := max_x_index vecs
  let vec_left := vecs.getD minIdx default
  let vecs1 := vecs.eraseIdx minIdx
  let rIdx := if maxIdx < minIdx then maxIdx else maxIdx - 1
  let vec_right := vecs1.getD rIdx default
  let vecs2 := vecs1.eraseIdx rIdx
  let vec_mid := vecs2.getD 0 default
  (vec_left, vec_right, vec_mid)

/-- `GameWindow::fill_triangle`, recorded as the list of `draw_line` calls
it makes: apply the luminance to the color, classify the vertices by x,
round the three x-coordinates to `usize`, take the three span widths with
checked subtraction (`none` models the underflow panic), and sweep the two
sub-triangles column by column, drawing one vertical line per step. -/
def fill_triangle (shadow_intensity : ℚ) (t : Triangle2 ℚ) (color : Color) :
    Option (List LineCmd) :=
  let color_lum := apply_color_luminance shadow_intensity color t.lum
  let lrm := classify t
  let vec_left := lrm.1
  let vec_right := lrm.2.1
  let vec_mid := lrm.2.2
  let x_left := roundToUsize vec_left.x
  let x_right := roundToUsize vec_right.x
  let x_mid := roundToUsize vec_mid.x
  match checkedSub x_right x_left, checkedSub x_mid x_left, checkedSub x_right x_mid with
  | some steps_full, some steps_left, some steps_right =>
    some
      ((List.range (steps_left + 1)).map (fun i =>
          let steps_progress_left : ℚ := (i : ℚ) / (steps_left : ℚ)
          let steps_progress_full : ℚ := (i : ℚ) / (steps_full : ℚ)
          let x := vec_left.x + (vec_mid.x - vec_left.x) * steps_progress_left
          let y1 := vec_left.y + (vec_mid.y - vec_left.y) * steps_progress_left
          let y2 := vec_left.y + (vec_right.y - vec_left.y) * steps_progress_full
          ⟨⟨x, y1⟩, ⟨x, y2⟩, color_lum⟩)
        ++ (List.range (steps_right + 1)).map (fun i =>
          let steps_progress_right : ℚ := (i : ℚ) / (steps_right : ℚ)
          let steps_progress_full : ℚ :=
            ((steps_left : ℚ) + (i : ℚ)) / (steps_full : ℚ)
          let x := vec_mid.x + (vec_right.x - vec_mid.x) * steps_progress_right
          let y1 := vec_mid.y + (vec_right.y - vec_mid.y) * steps_progress_right
          let y2 := vec_left.y + (vec_right.y - vec_left.y) * steps_progress_full
          ⟨⟨x, y1⟩, ⟨x, y2⟩, color_lum⟩))
  | _, _, _ => none

/-! ## 3D vectors (`src/vector.rs`), over `ℝ` -/

/-- `Vector<3, T>`: a three-coordinate vector. -/
structure Vec3 (α : Type) where
  x : α
  y : α
  z : α

/-- Componentwise vector subtraction (`impl Sub for Vector`). -/
instance : Sub (Vec3 ℝ) := ⟨fun a b => ⟨a.x - b.x, a.y - b.y, a.z - b.z⟩⟩

/-- `Vector::<3>::cross`. -/
def Vec3.cross (a b : Vec3 ℝ) : Vec3 ℝ :=
  ⟨a.y * b.z - a.z * b.y, a.z * b.x - a.x * b.z, a.x * b.y - a.y * b.x⟩

/-- `Vector::<3>::dot`: the sum of pairwise coordinate products. -/
def Vec3.dot (a b : Vec3 ℝ) : ℝ :=
  a.x * b.x + a.y * b.y + a.z * b.z

/-- `Vector::normalize`: divide every coordinate by the Euclidean length. -/
noncomputable def Vec3.normalize (v : Vec3 ℝ) : Vec3 ℝ :=
  let length := Real.sqrt (v.x * v.x + v.y * v.y + v.z * v.z)
  ⟨v.x / length, v.y / length, v.z / length⟩

/-! ## The 4x4 matrix (`src/matrix.rs`) -/

/-- `Matrix<4, 4, f32>`, as the indexing function `(x, y) ↦ m[(x, y)]`. -/
def Mat4 : Type := Fin 4 → Fin 4 → ℝ

/-- `Matrix::identity`: ones on the diagonal, zeros elsewhere. -/
noncomputable def Mat4.identity : Mat4 :=
  fun i j => if i = j then 1 else 0

/-- `impl Mul<Vector<3>> for Matrix<4, 4, f32>`: compute the homogeneous
components `x, y, z, w` from the matrix entries, then divide the first
three by `w` unless `w` is exactly zero. -/
noncomputable def matMulVec (m : Mat4) (v : Vec3 ℝ) : Vec3 ℝ :=
  let x := v.x * m 0 0 + v.y * m 1 0 + v.z * m 2 0 + m 3 0
  let y := v.x * m 0 1 + v.y * m 1 1 + v.z * m 2 1 + m 3 1
  let z := v.x * m 0 2 + v.y * m 1 2 + v.z * m 2 2 + m 3 2
  let w := v.x * m 0 3 + v.y * m 1 3 + v.z * m 2 3 + m 3 3
  if w ≠ 0 then ⟨x / w, y / w, z / w⟩ else ⟨x, y, z⟩

/-! ## 3D triangles and meshes (`src/triangle.rs`, `src/mesh.rs`) -/

/-- `Triangle<3, f32>`: three 3D vectors plus a luminance. -/
structure Triangle3 where
  v0 : Vec3 ℝ
  v1 : Vec3 ℝ
  v2 : Vec3 ℝ
  lum : ℝ

/-- `Triangle::transform`: map every vector, keep the luminance. -/
def Triangle3.transform (t : Triangle3) (f : Vec3 ℝ → Vec3 ℝ) : Triangle3 :=
  ⟨f t.v0, f t.v1, f t.v2, t.lum⟩

/-- `Triangle::<3, f32>::normal`: the normalized cross product of the two
edges leaving the first vertex. -/
noncomputable def Triangle3.normal (t : Triangle3) : Vec3 ℝ :=
  let a := t.v1 - t.v0
  let b := t.v2 - t.v0
  (a.cross b).normalize

/-- `Mesh<3, f32>`: an ordered list of 3D triangles. -/
structure Mesh3 where
  tris : List Triangle3

/-- `Mesh::transform`: map every triangle in order. -/
def Mesh3.transform (m : Mesh3) (f : Triangle3 → Triangle3) : Mesh3 :=
  ⟨m.tris.map f⟩

/-- The 2D mesh produced by projection, still over `ℝ`. -/
structure Mesh2R where
  tris : List (Triangle2 ℝ)

/-- `Triangle<2, ℝ>::transform`: map every vector, keep the luminance. -/
def Triangle2.transformR (t : Triangle2 ℝ) (f : Vec2 ℝ → Vec2 ℝ) : Triangle2 ℝ :=
  ⟨f t.v0, f t.v1, f t.v2, t.lum⟩

/-- `Mesh<2, ℝ>::transform`: map every triangle in order. -/
def Mesh2R.transform (m : Mesh2R) (f : Triangle2 ℝ → Triangle2 ℝ) : Mesh2R :=
  ⟨m.tris.map f⟩

/-! ## The transform pipeline (`src/transform.rs`) -/

/-- `Transform<3, f32>`: the current mesh plus the projection matrix. -/
structure Transform3 where
  mesh : Mesh3
  projection_matrix : Mat4

/-- `Transform<2, f32>`: the state after projection. -/
structure Transform2 where
  mesh : Mesh2R
  projection_matrix : Mat4

/-- `generate_x_rotation_matrix`: the identity with the four trigonometric
entries at `(1,1)`, `(1,2)`, `(2,1)`, `(2,2)` overwritten. -/
noncomputable def generate_x_rotation_matrix (angle : ℝ) : Mat4 :=
  fun i j =>
    if i = 1 ∧ j = 1 then Real.cos angle
    else if i = 1 ∧ j = 2 then Real.sin angle
    else if i = 2 ∧ j = 1 then -Real.sin angle
    else if i = 2 ∧ j = 2 then Real.cos angle
    else Mat4.identity i j

/-- `generate_y_rotation_matrix`. -/
noncomputable def generate_y_rotation_matrix (angle : ℝ) : Mat4 :=
  fun i j =>
    if i = 0 ∧ j = 0 then Real.cos angle
    else if i = 0 ∧ j = 2 then -Real.sin angle
    else if i = 2 ∧ j = 0 then Real.sin angle
    else if i = 2 ∧ j = 2 then Real.cos angle
    else Mat4.identity i j

/-- `generate_z_rotation_matrix`. -/
noncomputable def generate_z_rotation_matrix (angle : ℝ) : Mat4 :=
  fun i j =>
    if i = 0 ∧ j = 0 then Real.cos angle
    else if i = 0 ∧ j = 1 then Real.sin angle
    else if i = 1 ∧ j = 0 then -Real.sin angle
    else if i = 1 ∧ j = 1 then Real.cos angle
    else Mat4.identity i j

/-- `Transform::translate` over 3D: add the offset in every dimension. -/
def Transform3.translate (st : Transform3) (values : Vec3 ℝ) : Transform3 :=
  { st with
    mesh := st.mesh.transform (fun tri => tri.transform (fun v =>
      ⟨v.x + values.x, v.y + values.y, v.z + values.z⟩)) }

/-- `Transform::scale` over 3D: multiply by the factor in every dimension. -/
def Transform3.scale (st : Transform3) (factors : Vec3 ℝ) : Transform3 :=
  { st with
    mesh := st.mesh.transform (fun tri => tri.transform (fun v =>
      ⟨v.x * factors.x, v.y * factors.y, v.z * factors.z⟩)) }

/-- `Transform::translate` over 2D (used after projection). -/
def Transform2.translate (st : Transform2) (values : Vec2 ℝ) : Transform2 :=
  { st with
    mesh := st.mesh.transform (fun tri => tri.transformR (fun v =>
      ⟨v.x + values.x, v.y + values.y⟩)) }

/-- `Transform::scale` over 2D (used after projection). -/
def Transform2.scale (st : Transform2) (factors : Vec2 ℝ) : Transform2 :=
  { st with
    mesh := st.mesh.transform (fun tri => tri.transformR (fun v =>
      ⟨v.x * factors.x, v.y * factors.y⟩)) }

/-- `Transform::rotate_x`: multiply every vertex by the x rotation matrix. -/
noncomputable def Transform3.rotate_x (st : Transform3) (angle : ℝ) : Transform3 :=
  { st with
    mesh := st.mesh.transform (fun tri => tri.transform (fun v =>
      matMulVec (generate_x_rotation_matrix angle) v)) }

/-- `Transform::rotate_y`. -/
noncomputable def Transform3.rotate_y (st : Transform3) (angle : ℝ) : Transform3 :=
  { st with
    mesh := st.mesh.transform (fun tri => tri.transform (fun v =>
      matMulVec (generate_y_rotation_matrix angle) v)) }

/-- `Transform::rotate_z`. -/
noncomputable def Transform3.rotate_z (st : Transform3) (angle : ℝ) : Transform3 :=
  { st with
    mesh := st.mesh.transform (fun tri => tri.transform (fun v =>
      matMulVec (generate_z_rotation_matrix angle) v)) }

/-- `Transform::normalize_filter`: keep exactly the triangles whose normal
dotted with (first vertex minus camera) is strictly negative. -/
noncomputable def Transform3.normalize_filter (st : Transform3) (camera : Vec3 ℝ) :
    Transform3 :=
  { st with
    mesh := ⟨st.mesh.tris.filter
      (fun triangle => decide (triangle.normal.dot (triangle.v0 - camera) < 0))⟩ }

/-- `Transform::apply_luminance`: set every triangle's luminance to the dot
product of its normal with the light vector. -/
noncomputable def Transform3.apply_luminance (st : Transform3) (light : Vec3 ℝ) :
    Transform3 :=
  { st with
    mesh := st.mesh.transform (fun triangle =>
      { triangle with lum := triangle.normal.dot light }) }

/-- `Transform::project`: multiply every vertex by the projection matrix,
keep coordinates 0 and 1, carry the luminance, and keep the projection
matrix. -/
noncomputable def Transform3.project (st : Transform3) : Transform2 :=
  { mesh := ⟨st.mesh.tris.map (fun triangle =>
      ⟨(fun v => (⟨v.x, v.y⟩ : Vec2 ℝ)) (matMulVec st.projection_matrix triangle.v0),
       (fun v => (⟨v.x, v.y⟩ : Vec2 ℝ)) (matMulVec st.projection_matrix triangle.v1),
       (fun v => (⟨v.x, v.y⟩ : Vec2 ℝ)) (matMulVec st.projection_matrix triangle.v2),
       triangle.lum⟩)⟩,
    projection_matrix := st.projection_matrix }

/-! ## Spec-side definitions

These follow the specification's words (not the source) and exist to be
compared with the definitions embedded from the source. -/

/-- The `left` vertex as claim C1 states it: the FIRST vertex (in vertex
order) attaining the minimum x-coordinate. -/
def spec_first_min_vertex (t : Triangle2 ℚ) : Vec2 ℚ :=
  if t.v0.x ≤ t.v1.x ∧ t.v0.x ≤ t.v2.x then t.v0
  else if t.v1.x ≤ t.v0.x ∧ t.v1.x ≤ t.v2.x then t.v1
  else t.v2

/-- The `right` vertex as claim C1 states it: the FIRST vertex (in vertex
order) attaining the maximum x-coordinate. -/
def spec_first_max_vertex (t : Triangle2 ℚ) : Vec2 ℚ :=
  if t.v1.x ≤ t.v0.x ∧ t.v2.x ≤ t.v0.x then t.v0
  else if t.v0.x ≤ t.v1.x ∧ t.v2.x ≤ t.v1.x then t.v1
  else t.v2

/-- The `left` vertex as the amended claim states it: the LAST vertex (in
vertex order) attaining the minimum x-coordinate. -/
def spec_last_min_vertex (t : Triangle2 ℚ) : Vec2 ℚ :=
  if t.v2.x ≤ t.v0.x ∧ t.v2.x ≤ t.v1.x then t.v2
  else if t.v1.x ≤ t.v0.x ∧ t.v1.x ≤ t.v2.x then t.v1
  else t.v0

/-- The `right` vertex as the amended claim states it (outside the fully
tied case): the LAST vertex attaining the maximum x-coordinate. -/
def spec_last_max_vertex (t : Triangle2 ℚ) : Vec2 ℚ :=
  if t.v0.x ≤ t.v2.x ∧ t.v1.x ≤ t.v2.x then t.v2
  else if t.v0.x ≤ t.v1.x ∧ t.v2.x ≤ t.v1.x then t.v1
  else t.v0

/-! ## Characterization of the vertex classification -/

set_option maxHeartbeats 2000000

/-- Full characterization of `classify`: `vec_left` is the last vertex of
minimal x, `vec_right` the last vertex of maximal x (except that when all
three x-coordinates tie, the second vertex is chosen), and the three
chosen x-coordinates are ordered `left ≤ mid ≤ right`. -/
lemma classify_char (t : Triangle2 ℚ) :
    (classify t).1 = spec_last_min_vertex t
  ∧ (classify t).2.1 =
      (if t.v0.x = t.v1.x ∧ t.v1.x = t.v2.x then t.v1 else spec_last_max_vertex t)
  ∧ (classify t).1.x ≤ t.v0.x ∧ (classify t).1.x ≤ t.v1.x ∧ (classify t).1.x ≤ t.v2.x
  ∧ t.v0.x ≤ (classify t).2.1.x ∧ t.v1.x ≤ (classify t).2.1.x ∧ t.v2.x ≤ (classify t).2.1.x
  ∧ (classify t).1.x ≤ (classify t).2.2.x ∧ (classify t).2.2.x ≤ (classify t).2.1.x := by
  obtain ⟨⟨x0, y0⟩, ⟨x1, y1⟩, ⟨x2, y2⟩, l⟩ := t
  simp only [classify, spec_last_min_vertex, spec_last_max_vertex, Triangle2.vecs,
    min_x_index, max_x_index, List.foldl]
  split_ifs <;>
    simp_all [List.eraseIdx] <;>
    first
      | rfl
      | linarith
      | (refine ⟨?_, ?_, ?_, ?_, ?_, ?_, ?_, ?_⟩ <;> linarith)
      | (exfalso; casesm* _ ∧ _; linarith)
      | (exfalso
         casesm* _ ∧ _
         have h01 : x0 = x1 := by linarith
         have h12 : x1 = x2 := by linarith
         simp_all)

/-- The vertices selected by `classify` are vertices of the triangle. -/
lemma classify_mem (t : Triangle2 ℚ) :
    (classify t).1 ∈ t.vecs ∧ (classify t).2.1 ∈ t.vecs ∧ (classify t).2.2 ∈ t.vecs := by
  obtain ⟨⟨x0, y0⟩, ⟨x1, y1⟩, ⟨x2, y2⟩, l⟩ := t
  simp only [classify, Triangle2.vecs, min_x_index, max_x_index, List.foldl]
  split_ifs <;> simp_all [List.eraseIdx]

/-! ## Monotonicity of the rounding pipeline -/

/-- Rounding half away from zero is monotone. -/
lemma rustRound_mono {q r : ℚ} (h : q ≤ r) : rustRound q ≤ rustRound r := by
  unfold rustRound
  split_ifs with h1 h2 h2
  · exact Int.floor_le_floor (by linarith)
  · linarith
  · calc ⌈q - 1 / 2⌉ ≤ 0 := Int.ceil_le.mpr (by push_cast; linarith)
      _ ≤ ⌊r + 1 / 2⌋ := Int.floor_nonneg.mpr (by linarith)
  · exact Int.ceil_le_ceil (by linarith)

/-- The saturating cast to `usize` is monotone. -/
lemma intToUsize_mono {z w : ℤ} (h : z ≤ w) : intToUsize z ≤ intToUsize w := by
  unfold intToUsize usizeMax
  split_ifs <;> omega

/-- Rounding then casting to `usize` is monotone. -/
lemma roundToUsize_mono {q r : ℚ} (h : q ≤ r) : roundToUsize q ≤ roundToUsize r :=
  intToUsize_mono (rustRound_mono h)

/-- Rounding an integer value returns it unchanged. -/
lemma rustRound_intCast (z : ℤ) : rustRound (z : ℚ) = z := by
  unfold rustRound
  split_ifs with h
  · refine Int.floor_eq_iff.mpr ⟨?_, ?_⟩ <;> push_cast <;> linarith
  · refine Int.ceil_eq_iff.mpr ⟨?_, ?_⟩ <;> push_cast <;> linarith

/-! ## Claim C1 — vertex classification in `fill_triangle` -/

/-- C1 counterexample: for the triangle with vertices (0,0), (0,1), (1,2),
the minimal x-coordinate 0 is shared by the first two vertices; the claim
says the first occurrence (0,0) becomes `left`, but `fill_triangle`
classifies (0,1) — the LAST occurrence — as `left`. -/
theorem C1_counterexample :
    (classify ⟨⟨0, 0⟩, ⟨0, 1⟩, ⟨1, 2⟩, 1⟩).1 = ⟨0, 1⟩
  ∧ spec_first_min_vertex ⟨⟨0, 0⟩, ⟨0, 1⟩, ⟨1, 2⟩, 1⟩ = ⟨0, 0⟩
  ∧ (classify ⟨⟨0, 0⟩, ⟨0, 1⟩, ⟨1, 2⟩, 1⟩).1
      ≠ spec_first_min_vertex ⟨⟨0, 0⟩, ⟨0, 1⟩, ⟨1, 2⟩, 1⟩ := by
  decide

/-- C1 (amended): `left` is a vertex of minimum x and `right` a vertex of
maximum x, but when vertices share the extreme x-coordinate the LAST
occurrence in vertex order wins for both choices — except that when all
three x-coordinates are equal, `left` is the third vertex and `right` the
second. -/
theorem C1_amended (t : Triangle2 ℚ) :
    (classify t).1 ∈ t.vecs
  ∧ (classify t).1.x ≤ t.v0.x ∧ (classify t).1.x ≤ t.v1.x ∧ (classify t).1.x ≤ t.v2.x
  ∧ (classify t).2.1 ∈ t.vecs
  ∧ t.v0.x ≤ (classify t).2.1.x ∧ t.v1.x ≤ (classify t).2.1.x ∧ t.v2.x ≤ (classify t).2.1.x
  ∧ (classify t).1 = spec_last_min_vertex t
  ∧ (classify t).2.1 =
      (if t.v0.x = t.v1.x ∧ t.v1.x = t.v2.x then t.v1 else spec_last_max_vertex t) := by
  obtain ⟨h1, h2, h3, h4, h5, h6, h7, h8, -, -⟩ := classify_char t
  obtain ⟨m1, m2, -⟩ := classify_mem t
  exact ⟨m1, h3, h4, h5, m2, h6, h7, h8, h1, h2⟩

/-! ## Claim C9 — the span subtractions in `fill_triangle` never underflow -/

/-- C9: the chosen `left`, `mid`, `right` vertices have rounded-and-cast
x-coordinates in the order `x_left ≤ x_mid ≤ x_right`, so the three
`usize` subtractions of `fill_triangle` never underflow and the function
produces a trace (no panic) on every rational-coordinate triangle. -/
theorem fill_triangle_no_underflow (shadow_intensity : ℚ) (t : Triangle2 ℚ) (color : Color) :
    roundToUsize (classify t).1.x ≤ roundToUsize (classify t).2.2.x
  ∧ roundToUsize (classify t).2.2.x ≤ roundToUsize (classify t).2.1.x
  ∧ (fill_triangle shadow_intensity t color).isSome = true := by
  obtain ⟨-, -, -, -, -, -, -, -, hLM, hMR⟩ := classify_char t
  have h1 : roundToUsize (classify t).1.x ≤ roundToUsize (classify t).2.2.x :=
    roundToUsize_mono hLM
  have h2 : roundToUsize (classify t).2.2.x ≤ roundToUsize (classify t).2.1.x :=
    roundToUsize_mono hMR
  have h3 : roundToUsize (classify t).1.x ≤ roundToUsize (classify t).2.1.x :=
    le_trans h1 h2
  refine ⟨h1, h2, ?_⟩
  unfold fill_triangle checkedSub
  dsimp only
  rw [if_pos h3, if_pos h1, if_pos h2]
  rfl

/-! ## Claim C2 — out-of-bounds `draw` -/

/-- C2 counterexample: the point (-3, 0) has rounded coordinates outside
the 2x2 buffer rectangle (its x rounds to -3, which is negative), yet
`draw` changes the buffer: Rust's saturating `as usize` cast clamps the
negative coordinate to column 0 and the pixel (0, 0) is written. -/
theorem C2_counterexample :
    rustRound (-3 : ℚ) < 0
  ∧ draw ⟨2, 2, [1, 1, 1, 1]⟩ ⟨-3, 0⟩ ⟨255, 0, 0⟩ ≠ ⟨2, 2, [1, 1, 1, 1]⟩ := by
  have h3 : rustRound (-3 : ℚ) = -3 := by
    have h := rustRound_intCast (-3)
    push_cast at h
    exact h
  have h0 : rustRound (0 : ℚ) = 0 := by
    have h := rustRound_intCast 0
    push_cast at h
    exact h
  constructor
  · rw [h3]
    norm_num
  · simp only [draw, roundToUsize]
    rw [h3, h0]
    decide

/-- C2 (amended): `draw` is a no-op exactly when the rounded coordinates
after the saturating cast to `usize` fall outside the buffer; since the
cast clamps negative values to 0, a point with a negative coordinate is
clamped onto the buffer edge and may still write a pixel, while any point
whose rounded x is at or beyond the width (or rounded y at or beyond the
height) writes nothing, leaving the buffer unchanged — never an error. -/
theorem C2_amended (s : Screen) (p : Vec2 ℚ) (color : Color)
    (h : s.width ≤ roundToUsize p.x ∨ s.height ≤ roundToUsize p.y) :
    draw s p color = s := by
  unfold draw
  rw [if_neg]
  intro hb
  obtain ⟨hx, hy, -⟩ := hb
  omega

/-- Witness for C2 (amended): a concrete in-range-y, out-of-range-x point
on a 2x2 screen is a no-op. -/
theorem C2_amended_witness :
    draw ⟨2, 2, [7, 7, 7, 7]⟩ ⟨5, 0⟩ ⟨255, 0, 0⟩ = ⟨2, 2, [7, 7, 7, 7]⟩ :=
  C2_amended ⟨2, 2, [7, 7, 7, 7]⟩ ⟨5, 0⟩ ⟨255, 0, 0⟩ (Or.inl (by
    show (2 : ℕ) ≤ roundToUsize (5 : ℚ)
    rw [show ((5 : ℚ)) = ((5 : ℤ) : ℚ) by norm_num, roundToUsize, rustRound_intCast]
    decide))

/-! ## Claim C7 — the effective shading color of `fill_triangle` -/

/-- Rounding a natural value returns it unchanged. -/
lemma rustRound_natCast (n : ℕ) : rustRound (n : ℚ) = n := by
  have h := rustRound_intCast (n : ℤ)
  push_cast at h
  exact h

/-- `rustRound` at the literal 0. -/
lemma rustRound_q0 : rustRound (0 : ℚ) = 0 := by
  have h := rustRound_natCast 0
  norm_num at h
  exact h

/-- `rustRound` at the literal 50. -/
lemma rustRound_q50 : rustRound (50 : ℚ) = 50 := by
  have h := rustRound_natCast 50
  norm_num at h
  exact h

/-- The `u8` cast of an integral float value, in integer terms. -/
lemma f32ToU8_intCast (z : ℤ) : f32ToU8 (some (z : ℚ)) = if z < 0 then 0 else min z.toNat 255 := by
  by_cases h : z < 0
  · have hq : ((z : ℚ) < 0) := by exact_mod_cast h
    simp [f32ToU8, h, hq]
  · have hq : ¬((z : ℚ) < 0) := by exact_mod_cast h
    simp [f32ToU8, h, hq, Int.floor_intCast]

/-- The `u8` cast at the literal 50. -/
lemma f32ToU8_q50 : f32ToU8 (some (50 : ℚ)) = 50 := by
  have h := f32ToU8_intCast 50
  norm_num at h
  exact h

/-- C7: the color `fill_triangle` hands to every `draw_line` call is the
base color put through `apply_color_luminance` with the triangle's
luminance, and `apply_color_luminance` scales each channel by
`1 - (1 - luminance) * shadow_intensity`, rounds, and narrows to `u8`. -/
theorem fill_triangle_shading (shadow_intensity luminance : ℚ) (color : Color)
    (t : Triangle2 ℚ) :
    apply_color_luminance shadow_intensity color luminance =
      ⟨f32ToU8 (some ((rustRound ((color.r : ℚ) * (1 - (1 - luminance) * shadow_intensity)) : ℤ) : ℚ)),
       f32ToU8 (some ((rustRound ((color.g : ℚ) * (1 - (1 - luminance) * shadow_intensity)) : ℤ) : ℚ)),
       f32ToU8 (some ((rustRound ((color.b : ℚ) * (1 - (1 - luminance) * shadow_intensity)) : ℤ) : ℚ))⟩
  ∧ ∀ cmds, fill_triangle shadow_intensity t color = some cmds →
      ∀ cmd ∈ cmds, cmd.color = apply_color_luminance shadow_intensity color t.lum := by
  constructor
  · rfl
  · intro cmds h cmd hc
    unfold fill_triangle at h
    dsimp only at h
    split at h
    · injection h with h
      subst h
      rcases List.mem_append.mp hc with hm | hm <;>
        obtain ⟨i, -, rfl⟩ := List.mem_map.mp hm <;> rfl
    · exact Option.noConfusion h

/-- Witness for C7: on a concrete degenerate triangle with luminance 1/2
and base color (100, 100, 100) under shadow intensity 1, every traced line
carries the shaded color (50, 50, 50). -/
theorem fill_triangle_shading_witness :
    (⟨⟨0, 5⟩, ⟨0, 9⟩, ⟨50, 50, 50⟩⟩ : LineCmd).color
      = apply_color_luminance 1 ⟨100, 100, 100⟩ (1 / 2) := by
  have e : fill_triangle 1 ⟨⟨0, 5⟩, ⟨0, 3⟩, ⟨0, 9⟩, 1 / 2⟩ ⟨100, 100, 100⟩ =
      some [⟨⟨0, 9⟩, ⟨0, 9⟩, ⟨50, 50, 50⟩⟩, ⟨⟨0, 5⟩, ⟨0, 9⟩, ⟨50, 50, 50⟩⟩] := by
    unfold fill_triangle apply_color_luminance classify min_x_index max_x_index
      Triangle2.vecs checkedSub roundToUsize intToUsize usizeMax
    norm_num [rustRound_q0, rustRound_q50, f32ToU8_q50, List.range_succ]
  exact (fill_triangle_shading 1 (1 / 2) ⟨100, 100, 100⟩ ⟨⟨0, 5⟩, ⟨0, 3⟩, ⟨0, 9⟩, 1 / 2⟩).2
    [⟨⟨0, 9⟩, ⟨0, 9⟩, ⟨50, 50, 50⟩⟩, ⟨⟨0, 5⟩, ⟨0, 9⟩, ⟨50, 50, 50⟩⟩] e
    ⟨⟨0, 5⟩, ⟨0, 9⟩, ⟨50, 50, 50⟩⟩ (by simp)

/-! ## Claim C10 — the `u8` narrowing in `apply_color_luminance` saturates -/

/-- C10: the narrowing cast in `apply_color_luminance` saturates rather
than wraps: a scaled value at or above 255 yields 255, a negative scaled
value yields 0, a NaN scaled value yields 0, and every result is at most
255 (so no value is ever reduced modulo 256); `apply_color_luminance`
computes each channel through exactly this cast. -/
theorem u8_cast_saturates (q : ℚ) :
    f32ToU8 none = 0
  ∧ (255 ≤ q → f32ToU8 (some q) = 255)
  ∧ (q < 0 → f32ToU8 (some q) = 0)
  ∧ f32ToU8 (some q) ≤ 255
  ∧ (∀ (shadow_intensity luminance : ℚ) (color : Color),
      apply_color_luminance shadow_intensity color luminance =
        ⟨f32ToU8 (some ((rustRound ((color.r : ℚ) * (1 - (1 - luminance) * shadow_intensity)) : ℤ) : ℚ)),
         f32ToU8 (some ((rustRound ((color.g : ℚ) * (1 - (1 - luminance) * shadow_intensity)) : ℤ) : ℚ)),
         f32ToU8 (some ((rustRound ((color.b : ℚ) * (1 - (1 - luminance) * shadow_intensity)) : ℤ) : ℚ))⟩) := by
  refine ⟨rfl, ?_, ?_, ?_, fun _ _ _ => rfl⟩
  · intro h
    simp only [f32ToU8]
    rw [if_neg (not_lt.mpr (by linarith))]
    have hf : (255 : ℤ) ≤ ⌊q⌋ := Int.le_floor.mpr (by push_cast; linarith)
    omega
  · intro h
    simp only [f32ToU8]
    rw [if_pos h]
  · simp only [f32ToU8]
    split_ifs <;> omega

/-- Witness for C10: a scaled value of 300 saturates to 255 (not 300 mod
256 = 44) and a scaled value of -7 saturates to 0. -/
theorem u8_cast_saturates_witness :
    f32ToU8 (some (300 : ℚ)) = 255 ∧ f32ToU8 (some (-7 : ℚ)) = 0 :=
  ⟨(u8_cast_saturates 300).2.1 (by norm_num),
   (u8_cast_saturates (-7)).2.2.1 (by norm_num)⟩

/-! ## Claim C8 — `draw_shape` -/

/-- The index loop of `draw_shape` draws exactly the consecutive pairs. -/
lemma range_map_consecutive (l : List (Vec2 ℚ)) (c : Color) :
    (List.range (l.length - 1)).map
        (fun i => (⟨l.getD i default, l.getD (i + 1) default, c⟩ : LineCmd))
      = (l.zip l.tail).map (fun p => ⟨p.1, p.2, c⟩) := by
  induction l with
  | nil => simp
  | cons a l ih =>
    cases l with
    | nil => simp
    | cons b l2 =>
      simp only [List.length_cons, Nat.add_sub_cancel, List.range_succ_eq_map,
        List.map_cons, List.map_map, List.tail_cons, List.zip_cons_cons]
      have ih2 := ih
      simp only [List.length_cons, Nat.add_sub_cancel, List.tail_cons] at ih2
      refine congrArg₂ _ (by simp) ?_
      rw [← ih2]
      exact List.map_congr_left (fun i _ => by simp [Function.comp])

/-- C8: `draw_shape` signals its precondition failure exactly when given
fewer than two points; on `n ≥ 2` points it draws the `n - 1` lines
between consecutive pairs and then one closing line between the first
point and the last. -/
theorem draw_shape_spec (points : List (Vec2 ℚ)) (color : Color) :
    (draw_shape points color = none ↔ points.length < 2)
  ∧ (2 ≤ points.length →
      draw_shape points color =
        some ((points.zip points.tail).map (fun p => ⟨p.1, p.2, color⟩)
          ++ [⟨points.headD default, points.getLastD default, color⟩])) := by
  constructor
  · unfold draw_shape
    split_ifs with h <;> simp [h]
  · intro h
    unfold draw_shape
    rw [if_neg (by omega), range_map_consecutive]

/-- Witness for C8: on a concrete 3-point shape the trace is the two
consecutive lines plus the closing line, and a 1-point shape panics. -/
theorem draw_shape_spec_witness :
    draw_shape [⟨0, 0⟩, ⟨1, 1⟩, ⟨2, 0⟩] ⟨1, 2, 3⟩ =
      some [⟨⟨0, 0⟩, ⟨1, 1⟩, ⟨1, 2, 3⟩⟩, ⟨⟨1, 1⟩, ⟨2, 0⟩, ⟨1, 2, 3⟩⟩,
            ⟨⟨0, 0⟩, ⟨2, 0⟩, ⟨1, 2, 3⟩⟩]
  ∧ draw_shape [⟨0, 0⟩] ⟨1, 2, 3⟩ = none := by
  constructor
  · rw [(draw_shape_spec [⟨0, 0⟩, ⟨1, 1⟩, ⟨2, 0⟩] ⟨1, 2, 3⟩).2 (by simp)]
    simp
  · exact ((draw_shape_spec [⟨0, 0⟩] ⟨1, 2, 3⟩).1).mpr (by simp)

/-! ## Claim C3 — `normalize_filter` is the backface cull -/

/-- Componentwise description of the `Sub` instance on 3D vectors. -/
lemma vec3_sub_def (a b : Vec3 ℝ) : a - b = ⟨a.x - b.x, a.y - b.y, a.z - b.z⟩ := rfl

/-- C3: `normalize_filter` keeps exactly the triangles whose normal dotted
with (first vertex minus camera) is strictly negative, removing exactly
those with a nonnegative dot product, preserving the order of the kept
triangles (it is literally a `filter`), and never increasing the count;
every other pipeline operation leaves the triangle count unchanged. -/
theorem normalize_filter_spec (camera : Vec3 ℝ) (st : Transform3) :
    (st.normalize_filter camera).mesh.tris
      = st.mesh.tris.filter (fun tr => decide (tr.normal.dot (tr.v0 - camera) < 0))
  ∧ (∀ tr ∈ (st.normalize_filter camera).mesh.tris, tr.normal.dot (tr.v0 - camera) < 0)
  ∧ (∀ tr ∈ st.mesh.tris, tr.normal.dot (tr.v0 - camera) < 0 →
        tr ∈ (st.normalize_filter camera).mesh.tris)
  ∧ (∀ tr ∈ st.mesh.tris, 0 ≤ tr.normal.dot (tr.v0 - camera) →
        tr ∉ (st.normalize_filter camera).mesh.tris)
  ∧ (st.normalize_filter camera).mesh.tris.length ≤ st.mesh.tris.length
  ∧ (∀ v, (st.translate v).mesh.tris.length = st.mesh.tris.length)
  ∧ (∀ v, (st.scale v).mesh.tris.length = st.mesh.tris.length)
  ∧ (∀ a, (st.rotate_x a).mesh.tris.length = st.mesh.tris.length)
  ∧ (∀ a, (st.rotate_y a).mesh.tris.length = st.mesh.tris.length)
  ∧ (∀ a, (st.rotate_z a).mesh.tris.length = st.mesh.tris.length)
  ∧ (∀ l, (st.apply_luminance l).mesh.tris.length = st.mesh.tris.length)
  ∧ st.project.mesh.tris.length = st.mesh.tris.length := by
  refine ⟨rfl, ?_, ?_, ?_, List.length_filter_le _ _,
    fun v => by simp [Transform3.translate, Mesh3.transform],
    fun v => by simp [Transform3.scale, Mesh3.transform],
    fun a => by simp [Transform3.rotate_x, Mesh3.transform],
    fun a => by simp [Transform3.rotate_y, Mesh3.transform],
    fun a => by simp [Transform3.rotate_z, Mesh3.transform],
    fun l => by simp [Transform3.apply_luminance, Mesh3.transform],
    by simp [Transform3.project]⟩
  · intro tr htr
    have h := (List.mem_filter.mp htr).2
    simpa using h
  · intro tr htr hd
    exact List.mem_filter.mpr ⟨htr, by simpa using hd⟩
  · intro tr htr hd hmem
    have h := (List.mem_filter.mp hmem).2
    simp only [decide_eq_true_eq] at h
    linarith

/-- A triangle facing a camera at (0, 0, -1): its normal is (0, 0, -1). -/
def tri_facing : Triangle3 := ⟨⟨0, 0, 0⟩, ⟨0, 1, 0⟩, ⟨1, 1, 0⟩, 1⟩

/-- The same triangle with reversed winding: its normal is (0, 0, 1). -/
def tri_away : Triangle3 := ⟨⟨0, 0, 0⟩, ⟨1, 1, 0⟩, ⟨0, 1, 0⟩, 1⟩

/-- Witness for C3: with the camera at (0, 0, -1), the facing triangle is
kept and the reversed-winding triangle is removed. -/
theorem normalize_filter_spec_witness :
    tri_facing ∈ (Transform3.normalize_filter
      ⟨⟨[tri_facing, tri_away]⟩, fun _ _ => 0⟩ ⟨0, 0, -1⟩).mesh.tris
  ∧ tri_away ∉ (Transform3.normalize_filter
      ⟨⟨[tri_facing, tri_away]⟩, fun _ _ => 0⟩ ⟨0, 0, -1⟩).mesh.tris := by
  have hf : tri_facing.normal.dot (tri_facing.v0 - ⟨0, 0, -1⟩) < 0 := by
    simp only [tri_facing, Triangle3.normal, Vec3.cross, Vec3.normalize, Vec3.dot, vec3_sub_def]
    norm_num [Real.sqrt_one]
  have hb : (0 : ℝ) ≤ tri_away.normal.dot (tri_away.v0 - ⟨0, 0, -1⟩) := by
    simp only [tri_away, Triangle3.normal, Vec3.cross, Vec3.normalize, Vec3.dot, vec3_sub_def]
    norm_num [Real.sqrt_one]
  exact ⟨(normalize_filter_spec ⟨0, 0, -1⟩ ⟨⟨[tri_facing, tri_away]⟩, fun _ _ => 0⟩).2.2.1
      tri_facing (by simp) hf,
    (normalize_filter_spec ⟨0, 0, -1⟩ ⟨⟨[tri_facing, tri_away]⟩, fun _ _ => 0⟩).2.2.2.1
      tri_away (by simp) hb⟩

/-! ## Claim C4 — `Mesh::transform` and the shape-preserving operations -/

/-- C4: `Mesh::transform` maps every triangle in order (so it preserves
the triangle count and never removes or adds triangles), and the pipeline
operations translate, scale, rotate_x, rotate_y, rotate_z (in 3D, and
translate/scale in 2D as well) all preserve the triangle count. -/
theorem mesh_transform_preserves :
    (∀ (m : Mesh3) (f : Triangle3 → Triangle3), (m.transform f).tris = m.tris.map f)
  ∧ (∀ (m : Mesh3) (f : Triangle3 → Triangle3), (m.transform f).tris.length = m.tris.length)
  ∧ (∀ (m : Mesh2R) (f : Triangle2 ℝ → Triangle2 ℝ), (m.transform f).tris = m.tris.map f)
  ∧ (∀ (st : Transform3) v, (st.translate v).mesh.tris.length = st.mesh.tris.length)
  ∧ (∀ (st : Transform3) v, (st.scale v).mesh.tris.length = st.mesh.tris.length)
  ∧ (∀ (st : Transform3) a, (st.rotate_x a).mesh.tris.length = st.mesh.tris.length)
  ∧ (∀ (st : Transform3) a, (st.rotate_y a).mesh.tris.length = st.mesh.tris.length)
  ∧ (∀ (st : Transform3) a, (st.rotate_z a).mesh.tris.length = st.mesh.tris.length)
  ∧ (∀ (st : Transform2) v, (st.translate v).mesh.tris.length = st.mesh.tris.length)
  ∧ (∀ (st : Transform2) v, (st.scale v).mesh.tris.length = st.mesh.tris.length) :=
  ⟨fun _ _ => rfl,
   fun m f => by simp [Mesh3.transform],
   fun _ _ => rfl,
   fun st v => by simp [Transform3.translate, Mesh3.transform],
   fun st v => by simp [Transform3.scale, Mesh3.transform],
   fun st a => by simp [Transform3.rotate_x, Mesh3.transform],
   fun st a => by simp [Transform3.rotate_y, Mesh3.transform],
   fun st a => by simp [Transform3.rotate_z, Mesh3.transform],
   fun st v => by simp [Transform2.translate, Mesh2R.transform],
   fun st v => by simp [Transform2.scale, Mesh2R.transform]⟩

/-! ## Claim C5 — `project` -/

/-- C5: `project` maps every vertex of every triangle through the
projection matrix (with its perspective division), keeps coordinates 0
and 1 as the 2D vertex, carries each triangle's luminance through
unchanged, preserves the triangle count, and carries the same projection
matrix. -/
theorem project_spec (st : Transform3) :
    st.project.mesh.tris = st.mesh.tris.map (fun triangle =>
      (⟨⟨(matMulVec st.projection_matrix triangle.v0).x,
         (matMulVec st.projection_matrix triangle.v0).y⟩,
        ⟨(matMulVec st.projection_matrix triangle.v1).x,
         (matMulVec st.projection_matrix triangle.v1).y⟩,
        ⟨(matMulVec st.projection_matrix triangle.v2).x,
         (matMulVec st.projection_matrix triangle.v2).y⟩,
        triangle.lum⟩ : Triangle2 ℝ))
  ∧ st.project.projection_matrix = st.projection_matrix
  ∧ st.project.mesh.tris.length = st.mesh.tris.length :=
  ⟨rfl, rfl, by simp [Transform3.project]⟩

/-! ## Claim C6 — the homogeneous matrix-vector product -/

/-- The spec's view of the input vector: `v` extended with a fourth
component equal to 1. -/
def vec4_extend (v : Vec3 ℝ) : Fin 4 → ℝ :=
  fun i => if i = 0 then v.x else if i = 1 then v.y else if i = 2 then v.z else 1

/-- Column `j` of a 4x4 matrix. -/
def Mat4.column (m : Mat4) (j : Fin 4) : Fin 4 → ℝ := fun i => m i j

/-- A four-component dot product: the sum of pairwise products. -/
def dot4 (a b : Fin 4 → ℝ) : ℝ := a 0 * b 0 + a 1 * b 1 + a 2 * b 2 + a 3 * b 3

/-- C6 spec-side definition, following the claim's words: compute the
homogeneous components x, y, z, w as dot products of `v` extended with 1
with the matrix columns; if w is exactly zero skip the division yielding
(x, y, z) unscaled, else divide each component by w. -/
noncomputable def spec_homog_mul (m : Mat4) (v : Vec3 ℝ) : Vec3 ℝ :=
  let x := dot4 (vec4_extend v) (m.column 0)
  let y := dot4 (vec4_extend v) (m.column 1)
  let z := dot4 (vec4_extend v) (m.column 2)
  let w := dot4 (vec4_extend v) (m.column 3)
  if w = 0 then ⟨x, y, z⟩ else ⟨x / w, y / w, z / w⟩

/-- The dot product with column `j` expands to the source's formula. -/
lemma dot4_column (m : Mat4) (v : Vec3 ℝ) (j : Fin 4) :
    dot4 (vec4_extend v) (m.column j) = v.x * m 0 j + v.y * m 1 j + v.z * m 2 j + m 3 j := by
  simp [dot4, vec4_extend, Mat4.column]

/-- C6: the matrix-vector product of the source agrees with the claim's
description: homogeneous components as column dot products with (v, 1),
dividing by w exactly when w is nonzero. -/
theorem matMulVec_spec (m : Mat4) (v : Vec3 ℝ) : matMulVec m v = spec_homog_mul m v := by
  unfold matMulVec spec_homog_mul
  dsimp only
  rw [dot4_column, dot4_column, dot4_column, dot4_column]
  by_cases hw : v.x * m 0 3 + v.y * m 1 3 + v.z * m 2 3 + m 3 3 = 0
  · rw [if_neg (not_not_intro hw), if_pos hw]
  · rw [if_pos hw, if_neg hw]
